import Mathlib

/-!
Shallow embedding of `src/moving_average_bt.py` — a moving-average
crossover signal generator with a single-position portfolio simulator.

Conventions of the embedding:
* prices are rationals (the source computes in floating point; the claims
  under verification are about the arithmetic, not about rounding error);
* a series is the list of its closing prices in date order.  Bar dates are
  strictly increasing and duplicate-free, so the bar index serves as the
  date label: the source compares `strftime` date strings, which coincide
  exactly when the bar indices do;
* a pandas value that is `NaN` (a rolling mean with fewer than `window`
  observations) is embedded as `Option.none`; pandas comparisons against
  `NaN` are `False`, which `maGT` / `maLT` reproduce;
* Python's `round(x, 2)` (round half to even at two decimals) is `round2`.
-/

namespace MovingAverage

/-- Round half to even (banker's rounding), as Python's built-in `round`
rounds a tie. -/
def roundHalfEven (q : ℚ) : ℤ :=
  if q - ⌊q⌋ < 1 / 2 then ⌊q⌋
  else if 1 / 2 < q - ⌊q⌋ then ⌊q⌋ + 1
  else if Even ⌊q⌋ then ⌊q⌋ else ⌊q⌋ + 1

/-- Python's `round(q, 2)`. -/
def round2 (q : ℚ) : ℚ := (roundHalfEven (100 * q) : ℚ) / 100

/-- `data['Close'].rolling(window = w).mean()` evaluated at bar index `i`
(source line 26/27): the trailing mean of `closes[i+1-w .. i]`, `NaN`
(here `none`) while fewer than `w` observations are available, i.e. while
`i + 1 < w`, out of range, or for the degenerate window `w = 0`. -/
def rollingMean (closes : List ℚ) (w : ℕ) (i : ℕ) : Option ℚ :=
  if w = 0 ∨ i + 1 < w ∨ closes.length ≤ i then none
  else some (((closes.take (i + 1)).drop (i + 1 - w)).sum / (w : ℚ))

/-- `short_ma > long_ma` with pandas `NaN` semantics: any comparison
involving `NaN` is `False`. -/
def maGT : Option ℚ → Option ℚ → Bool
  | some a, some b => decide (b < a)
  | _, _ => false

/-- `short_ma < long_ma` with pandas `NaN` semantics. -/
def maLT : Option ℚ → Option ℚ → Bool
  | some a, some b => decide (a < b)
  | _, _ => false

inductive SignalKind
  | BUY
  | SELL
  | HOLD
deriving DecidableEq

/-- One row of `signals_with_dates` (source lines 48-56 / 65-73 / 83-91).
`date` is the bar index (see header comment); `position` is the raw
`current_position` integer stored by the source (`0` flat, `1` long). -/
structure SignalEvent where
  date : ℕ
  signal : SignalKind
  price : ℚ
  position : ℕ
  portfolio_value : ℚ
  short_ma : Option ℚ
  long_ma : Option ℚ
deriving DecidableEq

/-- The mutable loop state of `calculate_signals` (source lines 30-33). -/
structure SimState where
  current_value : ℚ
  current_position : ℕ
  entry_price : Option ℚ
  signals : List SignalEvent
deriving DecidableEq

/-- The value update of the SELL branch (source lines 59-61):
`current_value * (1 + (price - entry_price) / entry_price)` when an entry
price is recorded, unchanged otherwise. -/
def sellValue (s : SimState) (price : ℚ) : ℚ :=
  match s.entry_price with
  | some ep => s.current_value * (1 + (price - ep) / ep)
  | none => s.current_value

/-- One iteration of the `for i in range(len(data))` loop of
`calculate_signals` (source lines 37-73): bar `0` is skipped, a BUY fires
when `short_ma > long_ma` and the position is flat, a SELL fires when
`short_ma < long_ma` and the position is long. -/
def stepBar (closes : List ℚ) (sw lw : ℕ) (s : SimState) (i : ℕ) : SimState :=
  if i = 0 then s
  else if maGT (rollingMean closes sw i) (rollingMean closes lw i)
      && (s.current_position == 0) then
    { current_value := s.current_value
      current_position := 1
      entry_price := some (closes.getD i 0)
      signals := s.signals ++
        [{ date := i
           signal := SignalKind.BUY
           price := closes.getD i 0
           position := 1
           portfolio_value := round2 s.current_value
           short_ma := (rollingMean closes sw i).map round2
           long_ma := (rollingMean closes lw i).map round2 }] }
  else if maLT (rollingMean closes sw i) (rollingMean closes lw i)
      && (s.current_position == 1) then
    { current_value := sellValue s (closes.getD i 0)
      current_position := 0
      entry_price := none
      signals := s.signals ++
        [{ date := i
           signal := SignalKind.SELL
           price := closes.getD i 0
           position := 0
           portfolio_value := round2 (sellValue s (closes.getD i 0))
           short_ma := (rollingMean closes sw i).map round2
           long_ma := (rollingMean closes lw i).map round2 }] }
  else s

/-- The event (if any) appended by one loop iteration; `stepBar` appends
exactly `(stepEvent ...).toList` (lemma `stepBar_signals`). -/
def stepEvent (closes : List ℚ) (sw lw : ℕ) (s : SimState) (i : ℕ) :
    Option SignalEvent :=
  if i = 0 then none
  else if maGT (rollingMean closes sw i) (rollingMean closes lw i)
      && (s.current_position == 0) then
    some
      { date := i
        signal := SignalKind.BUY
        price := closes.getD i 0
        position := 1
        portfolio_value := round2 s.current_value
        short_ma := (rollingMean closes sw i).map round2
        long_ma := (rollingMean closes lw i).map round2 }
  else if maLT (rollingMean closes sw i) (rollingMean closes lw i)
      && (s.current_position == 1) then
    some
      { date := i
        signal := SignalKind.SELL
        price := closes.getD i 0
        position := 0
        portfolio_value := round2 (sellValue s (closes.getD i 0))
        short_ma := (rollingMean closes sw i).map round2
        long_ma := (rollingMean closes lw i).map round2 }
  else none

/-- The initial state (source lines 30-33). -/
def initState (initial_investment : ℚ) : SimState :=
  { current_value := initial_investment
    current_position := 0
    entry_price := none
    signals := [] }

/-- The loop state after processing bar indices `0 .. k-1`. -/
def runLoop (closes : List ℚ) (sw lw : ℕ) (s : SimState) : ℕ → SimState
  | 0 => s
  | k + 1 => stepBar closes sw lw (runLoop closes sw lw s k) k

/-- The loop state after the first `k` iterations, starting from the
initial investment. -/
def loopState (closes : List ℚ) (sw lw : ℕ) (c0 : ℚ) (k : ℕ) : SimState :=
  runLoop closes sw lw (initState c0) k

/-- `data['Close'].iloc[-1]` (source line 76); on an empty frame the
source raises `IndexError`, which `calculate_signalsE` models. -/
def finalPrice (closes : List ℚ) : ℚ := closes.getD (closes.length - 1) 0

/-- The post-loop mark-to-market adjustment (source lines 76-79): if the
position is still long with a recorded entry price, revalue at the final
close. -/
def finalValue (closes : List ℚ) (sw lw : ℕ) (c0 : ℚ) : ℚ :=
  match (loopState closes sw lw c0 closes.length).current_position,
      (loopState closes sw lw c0 closes.length).entry_price with
  | 1, some ep =>
    (loopState closes sw lw c0 closes.length).current_value *
      (1 + (finalPrice closes - ep) / ep)
  | _, _ => (loopState closes sw lw c0 closes.length).current_value

/-- The synthetic terminal HOLD row (source lines 83-91). -/
def terminalHold (closes : List ℚ) (sw lw : ℕ) (c0 : ℚ) : SignalEvent :=
  { date := closes.length - 1
    signal := SignalKind.HOLD
    price := finalPrice closes
    position := (loopState closes sw lw c0 closes.length).current_position
    portfolio_value := round2 (finalValue closes sw lw c0)
    short_ma := (rollingMean closes sw (closes.length - 1)).map round2
    long_ma := (rollingMean closes lw (closes.length - 1)).map round2 }

/-- The final `signals_with_dates` list (source lines 82-91): the loop
events, with the terminal HOLD appended when the list is empty or its
last row is not dated at the final bar. -/
def historyOf (closes : List ℚ) (sw lw : ℕ) (c0 : ℚ) : List SignalEvent :=
  let s := loopState closes sw lw c0 closes.length
  match s.signals.getLast? with
  | none => s.signals ++ [terminalHold closes sw lw c0]
  | some e =>
    if e.date = closes.length - 1 then s.signals
    else s.signals ++ [terminalHold closes sw lw c0]

/-- The pandas frame passed between stages: the `Close` column plus the
two derived columns, `none` while the column has not been assigned.  The
source assigns `data['short_ma']` and `data['long_ma']` in place
(lines 26-27). -/
structure DataFrame where
  close : List ℚ
  short_ma : Option (List (Option ℚ))
  long_ma : Option (List (Option ℚ))
deriving DecidableEq

/-- A freshly fetched frame: price column only, derived columns absent. -/
def mkDF (closes : List ℚ) : DataFrame :=
  { close := closes, short_ma := none, long_ma := none }

/-- The full rolling-mean column written into the frame. -/
def maCol (closes : List ℚ) (w : ℕ) : List (Option ℚ) :=
  (List.range closes.length).map (rollingMean closes w)

/-- The dictionary returned by `calculate_signals` (source lines 93-100). -/
structure SignalResult where
  close : ℚ
  ma : Option ℚ
  signal : SignalKind
  history : List SignalEvent
  data : DataFrame
  final_value : ℚ
deriving DecidableEq

/-- `calculate_signals(data, short_window, long_window,
initial_investment)` (source lines 24-100).  The loop reads the freshly
assigned `short_ma` / `long_ma` columns, whose entry at `i` is
`rollingMean closes w i` (lemma `maCol_getD`); the returned `data` is the
input frame with the two columns written into it. -/
def calculate_signals (df : DataFrame) (sw lw : ℕ) (c0 : ℚ) : SignalResult :=
  { close := finalPrice df.close
    ma := rollingMean df.close lw (df.close.length - 1)
    signal :=
      ((historyOf df.close sw lw c0).getLast?.map SignalEvent.signal).getD
        SignalKind.HOLD
    history := historyOf df.close sw lw c0
    data :=
      { df with
          short_ma := some (maCol df.close sw)
          long_ma := some (maCol df.close lw) }
    final_value := finalValue df.close sw lw c0 }

/-- Python exceptions that `main`'s outer `try` can observe. -/
inductive PyErr
  | indexError
  | keyError
deriving DecidableEq

/-- `calculate_signals` as it actually behaves on an arbitrary frame:
on an empty frame, `data['Close'].iloc[-1]` (source line 76) raises
`IndexError` before any row is produced. -/
def calculate_signalsE (df : DataFrame) (sw lw : ℕ) (c0 : ℚ) :
    Except PyErr SignalResult :=
  if df.close = [] then Except.error PyErr.indexError
  else Except.ok (calculate_signals df sw lw c0)

/-- The signal-building loop of `main` (source lines 148-152): a fetch
result of `none` models `fetch_stock_data` returning `None` (its own
`try/except` caught a provider error); such a ticker gets no entry in the
`signals` dict.  Any exception escapes to `main`'s outer `except`. -/
def buildSignals (fetched : List (Option DataFrame)) (sw lw : ℕ) (c0 : ℚ) :
    Except PyErr (List (Option SignalResult)) :=
  match fetched with
  | [] => Except.ok []
  | none :: rest => (buildSignals rest sw lw c0).map (none :: ·)
  | some df :: rest => do
    let r ← calculate_signalsE df sw lw c0
    let rs ← buildSignals rest sw lw c0
    return some r :: rs

/-- The display loop of `main` (source lines 161-164): it iterates the
full ticker list and reads `signals[ticker]` unguarded, so a ticker with
no dict entry raises `KeyError`. -/
def displaySignals (sigs : List (Option SignalResult)) :
    Except PyErr (List (List SignalEvent)) :=
  match sigs with
  | [] => Except.ok []
  | none :: _ => Except.error PyErr.keyError
  | some r :: rest => (displaySignals rest).map (r.history :: ·)

/-- Lines 148-164 of `main`: fetch results go through the signal loop and
then the display loop, the whole block sitting inside one `try/except`
(source lines 135/298), so any error aborts the entire batch. -/
def processBatch (fetched : List (Option DataFrame)) (sw lw : ℕ) (c0 : ℚ) :
    Except PyErr (List (List SignalEvent)) := do
  displaySignals (← buildSignals fetched sw lw c0)

/-- The `Position` column label of the reporter (source line 182). -/
inductive PositionLabel
  | Holding
  | NotHolding
deriving DecidableEq

/-- One displayed row of the signal-history table (source lines 167-186). -/
structure DisplayRow where
  date : ℕ
  signal : SignalKind
  price : ℚ
  position : PositionLabel
  portfolio_value : ℚ
  short_ma : Option ℚ
  long_ma : Option ℚ
deriving DecidableEq

/-- The reporter's projection of one event into a display row. -/
def displayRowOf (e : SignalEvent) : DisplayRow :=
  { date := e.date
    signal := e.signal
    price := round2 e.price
    position := if e.position = 1 then PositionLabel.Holding
                else PositionLabel.NotHolding
    portfolio_value := e.portfolio_value
    short_ma := e.short_ma
    long_ma := e.long_ma }

/-- The Signal History Reporter (source lines 166-201): a pure projection
of the event list into a fresh display table. -/
def renderHistory (h : List SignalEvent) : List DisplayRow :=
  h.map displayRowOf

/-- Modelled from the spec: the equity update of the continuous
mark-to-market policy (spec §4.4) — capital is static while FLAT; while
LONG, equity is multiplied by `1 + (close_t - close_{t-1}) / close_{t-1}`
on each bar.  `st` is `(equity, position entering bar i)`. -/
def mtmValue (closes : List ℚ) (st : ℚ × ℕ) (i : ℕ) : ℚ :=
  if st.2 = 1 then
    st.1 * (1 + (closes.getD i 0 - closes.getD (i - 1) 0) /
      closes.getD (i - 1) 0)
  else st.1

/-- Modelled from the spec: one bar of the continuous mark-to-market
Portfolio Simulator, driven by the same crossover transitions as the
engine. -/
def mtmStep (closes : List ℚ) (sw lw : ℕ) (st : ℚ × ℕ) (i : ℕ) : ℚ × ℕ :=
  if i = 0 then st
  else if maGT (rollingMean closes sw i) (rollingMean closes lw i)
      && (st.2 == 0) then (mtmValue closes st i, 1)
  else if maLT (rollingMean closes sw i) (rollingMean closes lw i)
      && (st.2 == 1) then (mtmValue closes st i, 0)
  else (mtmValue closes st i, st.2)

/-- Modelled from the spec: iterate the continuous mark-to-market policy
over the first `k` bars. -/
def mtmRun (closes : List ℚ) (sw lw : ℕ) (st : ℚ × ℕ) : ℕ → ℚ × ℕ
  | 0 => st
  | k + 1 => mtmStep closes sw lw (mtmRun closes sw lw st k) k

/-- Modelled from the spec: the continuous mark-to-market final value of
the whole series. -/
def mtmFinal (closes : List ℚ) (sw lw : ℕ) (c0 : ℚ) : ℚ :=
  (mtmRun closes sw lw (c0, 0) closes.length).1

/-! ### Basic lemmas about the embedded definitions -/

lemma maGT_none_left (b : Option ℚ) : maGT none b = false := by
  cases b <;> rfl

lemma maGT_none_right (a : Option ℚ) : maGT a none = false := by
  cases a <;> rfl

lemma maGT_self (o : Option ℚ) : maGT o o = false := by
  cases o <;> simp [maGT]

lemma maLT_none_left (b : Option ℚ) : maLT none b = false := by
  cases b <;> rfl

lemma maLT_self (o : Option ℚ) : maLT o o = false := by
  cases o <;> simp [maLT]

lemma maGT_eq_false_of_maLT {a b : Option ℚ} (h : maLT a b = true) :
    maGT a b = false := by
  cases a with
  | none => exact maGT_none_left b
  | some x =>
    cases b with
    | none => exact maGT_none_right _
    | some y =>
      simp [maLT] at h
      simp [maGT]
      exact le_of_lt h

lemma maLT_eq_false_of_maGT {a b : Option ℚ} (h : maGT a b = true) :
    maLT a b = false := by
  cases a with
  | none => simp [maGT] at h
  | some x =>
    cases b with
    | none => simp [maGT] at h
    | some y =>
      simp [maGT] at h
      simp [maLT]
      exact le_of_lt h

lemma stepBar_signals (closes : List ℚ) (sw lw : ℕ) (s : SimState) (i : ℕ) :
    (stepBar closes sw lw s i).signals =
      s.signals ++ (stepEvent closes sw lw s i).toList := by
  unfold stepBar stepEvent
  split_ifs <;> simp

lemma stepEvent_zero (closes : List ℚ) (sw lw : ℕ) (s : SimState) :
    stepEvent closes sw lw s 0 = none := by
  unfold stepEvent
  simp

lemma stepEvent_date {closes : List ℚ} {sw lw : ℕ} {s : SimState} {i : ℕ}
    {e : SignalEvent} (h : stepEvent closes sw lw s i = some e) : e.date = i := by
  unfold stepEvent at h
  split_ifs at h
  all_goals first
    | exact Option.noConfusion h
    | (simp only [Option.some.injEq] at h; subst h; rfl)

lemma stepEvent_not_hold {closes : List ℚ} {sw lw : ℕ} {s : SimState} {i : ℕ}
    {e : SignalEvent} (h : stepEvent closes sw lw s i = some e) :
    e.signal ≠ SignalKind.HOLD := by
  unfold stepEvent at h
  split_ifs at h
  all_goals first
    | exact Option.noConfusion h
    | (simp only [Option.some.injEq] at h; subst h; simp)

lemma stepEvent_buy_or_sell {closes : List ℚ} {sw lw : ℕ} {s : SimState} {i : ℕ}
    {e : SignalEvent} (h : stepEvent closes sw lw s i = some e) :
    e.signal = SignalKind.BUY ∨ e.signal = SignalKind.SELL := by
  unfold stepEvent at h
  split_ifs at h
  all_goals first
    | exact Option.noConfusion h
    | (simp only [Option.some.injEq] at h; subst h; simp)

lemma stepEvent_buy_iff (closes : List ℚ) (sw lw : ℕ) (s : SimState) (i : ℕ) :
    (∃ e, stepEvent closes sw lw s i = some e ∧ e.signal = SignalKind.BUY)
    ↔ i ≠ 0 ∧ maGT (rollingMean closes sw i) (rollingMean closes lw i) = true
      ∧ s.current_position = 0 := by
  unfold stepEvent
  split_ifs with h0 h1 h2 <;>
    simp_all [Bool.and_eq_true, beq_iff_eq]

lemma stepEvent_sell_iff (closes : List ℚ) (sw lw : ℕ) (s : SimState) (i : ℕ) :
    (∃ e, stepEvent closes sw lw s i = some e ∧ e.signal = SignalKind.SELL)
    ↔ i ≠ 0 ∧ maLT (rollingMean closes sw i) (rollingMean closes lw i) = true
      ∧ s.current_position = 1 := by
  unfold stepEvent
  split_ifs with h0 h1 h2 <;>
    simp_all [Bool.and_eq_true, beq_iff_eq]

lemma loopState_succ (closes : List ℚ) (sw lw : ℕ) (c0 : ℚ) (k : ℕ) :
    loopState closes sw lw c0 (k + 1) =
      stepBar closes sw lw (loopState closes sw lw c0 k) k := rfl

lemma mem_loopState_signals (closes : List ℚ) (sw lw : ℕ) (c0 : ℚ) (k : ℕ)
    (e : SignalEvent) :
    e ∈ (loopState closes sw lw c0 k).signals ↔
      ∃ i, i < k ∧ stepEvent closes sw lw (loopState closes sw lw c0 i) i = some e := by
  induction k with
  | zero => simp [loopState, runLoop, initState]
  | succ k ih =>
    rw [loopState_succ, stepBar_signals, List.mem_append, ih]
    constructor
    · rintro (⟨i, hi, h⟩ | h)
      · exact ⟨i, Nat.lt_succ_of_lt hi, h⟩
      · exact ⟨k, Nat.lt_succ_self k, (Option.mem_toList.mp h)⟩
    · rintro ⟨i, hi, h⟩
      rcases Nat.lt_succ_iff_lt_or_eq.mp hi with hik | rfl
      · exact Or.inl ⟨i, hik, h⟩
      · exact Or.inr (Option.mem_toList.mpr h)

lemma loopState_position (closes : List ℚ) (sw lw : ℕ) (c0 : ℚ) (k : ℕ) :
    (loopState closes sw lw c0 k).current_position = 0 ∨
      (loopState closes sw lw c0 k).current_position = 1 := by
  induction k with
  | zero => exact Or.inl rfl
  | succ k ih =>
    rw [loopState_succ]
    unfold stepBar
    split_ifs <;> simp_all

lemma loopState_dates (closes : List ℚ) (sw lw : ℕ) (c0 : ℚ) (k : ℕ) :
    (∀ e ∈ (loopState closes sw lw c0 k).signals, 0 < e.date ∧ e.date < k)
    ∧ ∀ e, (loopState closes sw lw c0 k).signals.getLast? = some e →
        ∀ e' ∈ (loopState closes sw lw c0 k).signals, e'.date ≤ e.date := by
  induction k with
  | zero => simp [loopState, runLoop, initState]
  | succ k ih =>
    obtain ⟨ihb, ihl⟩ := ih
    have hsig := stepBar_signals closes sw lw (loopState closes sw lw c0 k) k
    rw [loopState_succ]
    cases hse : stepEvent closes sw lw (loopState closes sw lw c0 k) k with
    | none =>
      rw [hse] at hsig
      simp only [Option.toList_none, List.append_nil] at hsig
      rw [hsig]
      refine ⟨fun e he => ?_, fun e hl e' he' => ihl e hl e' he'⟩
      obtain ⟨h1, h2⟩ := ihb e he
      exact ⟨h1, Nat.lt_succ_of_lt h2⟩
    | some ev =>
      rw [hse] at hsig
      simp only [Option.toList_some] at hsig
      rw [hsig]
      have hd : ev.date = k := stepEvent_date hse
      have hk0 : k ≠ 0 := by
        rintro rfl
        rw [stepEvent_zero] at hse
        exact Option.noConfusion hse
      constructor
      · intro e he
        rcases List.mem_append.mp he with he | he
        · obtain ⟨h1, h2⟩ := ihb e he
          exact ⟨h1, Nat.lt_succ_of_lt h2⟩
        · rw [List.mem_singleton.mp he, hd]
          exact ⟨Nat.pos_of_ne_zero hk0, Nat.lt_succ_self k⟩
      · intro e hl e' he'
        rw [List.getLast?_concat] at hl
        obtain rfl : ev = e := Option.some.inj hl
        rcases List.mem_append.mp he' with he' | he'
        · exact le_of_lt (hd ▸ (ihb e' he').2)
        · rw [List.mem_singleton.mp he']

lemma maGT_bar_zero (closes : List ℚ) (sw lw : ℕ) (hsw : 1 ≤ sw) (hlw : 1 ≤ lw) :
    maGT (rollingMean closes sw 0) (rollingMean closes lw 0) = false := by
  by_cases hlen : closes.length = 0
  · have h1 : rollingMean closes sw 0 = none := by
      unfold rollingMean
      rw [if_pos]
      right; right; omega
    rw [h1]
    exact maGT_none_left _
  · by_cases h2 : 1 < sw
    · have h1 : rollingMean closes sw 0 = none := by
        unfold rollingMean
        rw [if_pos]
        right; left; omega
      rw [h1]
      exact maGT_none_left _
    · by_cases h3 : 1 < lw
      · have h1 : rollingMean closes lw 0 = none := by
          unfold rollingMean
          rw [if_pos]
          right; left; omega
        rw [h1]
        exact maGT_none_right _
      · obtain rfl : sw = 1 := by omega
        obtain rfl : lw = 1 := by omega
        exact maGT_self _

lemma flat_prev_not_gt (closes : List ℚ) (sw lw : ℕ) (c0 : ℚ)
    (hsw : 1 ≤ sw) (hlw : 1 ≤ lw) (i : ℕ) (hi : 0 < i)
    (hpos : (loopState closes sw lw c0 i).current_position = 0) :
    maGT (rollingMean closes sw (i - 1)) (rollingMean closes lw (i - 1)) = false := by
  obtain ⟨j, rfl⟩ : ∃ j, i = j + 1 := ⟨i - 1, (Nat.succ_pred_eq_of_pos hi).symm⟩
  simp only [Nat.add_sub_cancel]
  rcases Nat.eq_zero_or_pos j with rfl | hj
  · exact maGT_bar_zero closes sw lw hsw hlw
  · cases hmg : maGT (rollingMean closes sw j) (rollingMean closes lw j) with
    | false => rfl
    | true =>
      exfalso
      have hj0 : j ≠ 0 := Nat.pos_iff_ne_zero.mp hj
      rw [loopState_succ] at hpos
      unfold stepBar at hpos
      rw [if_neg hj0] at hpos
      rcases loopState_position closes sw lw c0 j with hp | hp
      · rw [if_pos (by rw [hmg, hp]; rfl)] at hpos
        simp at hpos
      · rw [if_neg (by rw [hmg, hp]; decide),
          if_neg (by rw [maLT_eq_false_of_maGT hmg]; simp)] at hpos
        omega

lemma rollingMean_none_of_oob (closes : List ℚ) (w i : ℕ)
    (h : closes.length ≤ i) : rollingMean closes w i = none := by
  unfold rollingMean
  rw [if_pos]
  right; right; exact h

lemma historyOf_cases (closes : List ℚ) (sw lw : ℕ) (c0 : ℚ) :
    historyOf closes sw lw c0 = (loopState closes sw lw c0 closes.length).signals
    ∨ historyOf closes sw lw c0 =
        (loopState closes sw lw c0 closes.length).signals ++
          [terminalHold closes sw lw c0] := by
  unfold historyOf
  cases h : (loopState closes sw lw c0 closes.length).signals.getLast? with
  | none => simp [h]
  | some e =>
    simp only [h]
    split_ifs with hd
    · exact Or.inl rfl
    · exact Or.inr rfl

lemma terminalHold_signal (closes : List ℚ) (sw lw : ℕ) (c0 : ℚ) :
    (terminalHold closes sw lw c0).signal = SignalKind.HOLD := rfl

lemma mem_history_kind (df : DataFrame) (sw lw : ℕ) (c0 : ℚ) (i : ℕ)
    (kind : SignalKind) (hk : kind ≠ SignalKind.HOLD) :
    (∃ e ∈ (calculate_signals df sw lw c0).history, e.date = i ∧ e.signal = kind)
    ↔ ∃ e ∈ (loopState df.close sw lw c0 df.close.length).signals,
        e.date = i ∧ e.signal = kind := by
  have hrw : (calculate_signals df sw lw c0).history = historyOf df.close sw lw c0 := rfl
  rcases historyOf_cases df.close sw lw c0 with h | h <;> rw [hrw, h]
  constructor
  · rintro ⟨e, he, hd, hs⟩
    rcases List.mem_append.mp he with he | he
    · exact ⟨e, he, hd, hs⟩
    · rw [List.mem_singleton.mp he, terminalHold_signal] at hs
      exact absurd hs.symm hk
  · rintro ⟨e, he, hd, hs⟩
    exact ⟨e, List.mem_append.mpr (Or.inl he), hd, hs⟩

/-- C1: for every series and every bar index `i > 0`, the Signal Engine
emits a BUY at bar `i` if and only if `short_ma > long_ma` at bar `i`, the
previous bar did not already satisfy `short_ma > long_ma`, and the current
position is FLAT — exactly one BUY per flat-to-long crossing. -/
theorem buy_iff_fresh_cross (df : DataFrame) (sw lw : ℕ) (c0 : ℚ)
    (hsw : 1 ≤ sw) (hlw : 1 ≤ lw) (i : ℕ) (hi : 0 < i) :
    (∃ e ∈ (calculate_signals df sw lw c0).history,
        e.date = i ∧ e.signal = SignalKind.BUY)
    ↔ maGT (rollingMean df.close sw i) (rollingMean df.close lw i) = true
      ∧ maGT (rollingMean df.close sw (i - 1)) (rollingMean df.close lw (i - 1)) = false
      ∧ (loopState df.close sw lw c0 i).current_position = 0 := by
  rw [mem_history_kind df sw lw c0 i SignalKind.BUY (by simp)]
  constructor
  · rintro ⟨e, he, hdate, hsig⟩
    obtain ⟨j, hj, hstep⟩ := (mem_loopState_signals df.close sw lw c0 _ e).mp he
    have hji : j = i := by rw [← hdate, stepEvent_date hstep]
    rw [hji] at hstep
    have hbuy := (stepEvent_buy_iff df.close sw lw
      (loopState df.close sw lw c0 i) i).mp ⟨e, hstep, hsig⟩
    exact ⟨hbuy.2.1,
      flat_prev_not_gt df.close sw lw c0 hsw hlw i hi hbuy.2.2, hbuy.2.2⟩
  · rintro ⟨hgt, _hprev, hpos⟩
    have hin : i < df.close.length := by
      by_contra hle
      rw [rollingMean_none_of_oob df.close sw i (by omega),
        maGT_none_left] at hgt
      exact Bool.noConfusion hgt
    obtain ⟨e, hstep, hsig⟩ := (stepEvent_buy_iff df.close sw lw
      (loopState df.close sw lw c0 i) i).mpr ⟨by omega, hgt, hpos⟩
    exact ⟨e, (mem_loopState_signals df.close sw lw c0 _ e).mpr ⟨i, hin, hstep⟩,
      stepEvent_date hstep, hsig⟩

/-- Witness for C1: on closes `[10, 10, 12, 12, 8]` with windows `1`/`2`,
a BUY is emitted at bar `2`, where the short mean first exceeds the long
mean from a flat position. -/
theorem buy_iff_fresh_cross_witness :
    ((1 : ℕ) ≤ 1 ∧ (1 : ℕ) ≤ 2 ∧ (0 : ℕ) < 2) ∧
    ((∃ e ∈ (calculate_signals (mkDF [10, 10, 12, 12, 8]) 1 2 1000).history,
        e.date = 2 ∧ e.signal = SignalKind.BUY)
      ↔ maGT (rollingMean [10, 10, 12, 12, 8] 1 2)
            (rollingMean [10, 10, 12, 12, 8] 2 2) = true
        ∧ maGT (rollingMean [10, 10, 12, 12, 8] 1 (2 - 1))
            (rollingMean [10, 10, 12, 12, 8] 2 (2 - 1)) = false
        ∧ (loopState [10, 10, 12, 12, 8] 1 2 1000 2).current_position = 0) :=
  ⟨⟨by decide, by decide, by decide⟩,
    buy_iff_fresh_cross (mkDF [10, 10, 12, 12, 8]) 1 2 1000
      (by decide) (by decide) 2 (by decide)⟩

/-- C6: for every series and every bar index `i > 0`, the Signal Engine
emits a SELL at bar `i` if and only if `short_ma < long_ma` at bar `i` and
the current position is LONG; and on every bar where the two moving
averages are equal neither transition fires, so a plateau never closes
the open position by itself: any event at such a bar is the HOLD row. -/
theorem sell_iff_cross (df : DataFrame) (sw lw : ℕ) (c0 : ℚ) (i : ℕ)
    (hi : 0 < i) :
    ((∃ e ∈ (calculate_signals df sw lw c0).history,
        e.date = i ∧ e.signal = SignalKind.SELL)
      ↔ maLT (rollingMean df.close sw i) (rollingMean df.close lw i) = true
        ∧ (loopState df.close sw lw c0 i).current_position = 1)
    ∧ (rollingMean df.close sw i = rollingMean df.close lw i →
        ∀ e ∈ (calculate_signals df sw lw c0).history, e.date = i →
          e.signal = SignalKind.HOLD) := by
  have hh : (calculate_signals df sw lw c0).history = historyOf df.close sw lw c0 := rfl
  constructor
  · rw [mem_history_kind df sw lw c0 i SignalKind.SELL (by simp)]
    constructor
    · rintro ⟨e, he, hdate, hsig⟩
      obtain ⟨j, hj, hstep⟩ := (mem_loopState_signals df.close sw lw c0 _ e).mp he
      have hji : j = i := by rw [← hdate, stepEvent_date hstep]
      rw [hji] at hstep
      have hsell := (stepEvent_sell_iff df.close sw lw
        (loopState df.close sw lw c0 i) i).mp ⟨e, hstep, hsig⟩
      exact ⟨hsell.2.1, hsell.2.2⟩
    · rintro ⟨hlt, hpos⟩
      have hin : i < df.close.length := by
        by_contra hle
        rw [rollingMean_none_of_oob df.close sw i (by omega),
          maLT_none_left] at hlt
        exact Bool.noConfusion hlt
      obtain ⟨e, hstep, hsig⟩ := (stepEvent_sell_iff df.close sw lw
        (loopState df.close sw lw c0 i) i).mpr ⟨by omega, hlt, hpos⟩
      exact ⟨e, (mem_loopState_signals df.close sw lw c0 _ e).mpr ⟨i, hin, hstep⟩,
        stepEvent_date hstep, hsig⟩
  · intro heq e he hdate
    have hloop : ∀ e' ∈ (loopState df.close sw lw c0 df.close.length).signals,
        e'.date = i → False := by
      intro e' he' hdate'
      obtain ⟨j, hj, hstep⟩ := (mem_loopState_signals df.close sw lw c0 _ e').mp he'
      have hji : j = i := by rw [← hdate', stepEvent_date hstep]
      rw [hji] at hstep
      rcases stepEvent_buy_or_sell hstep with hs | hs
      · have := ((stepEvent_buy_iff df.close sw lw
          (loopState df.close sw lw c0 i) i).mp ⟨e', hstep, hs⟩).2.1
        rw [heq, maGT_self] at this
        exact Bool.noConfusion this
      · have := ((stepEvent_sell_iff df.close sw lw
          (loopState df.close sw lw c0 i) i).mp ⟨e', hstep, hs⟩).2.1
        rw [heq, maLT_self] at this
        exact Bool.noConfusion this
    rcases historyOf_cases df.close sw lw c0 with h | h <;> rw [hh, h] at he
    · exact absurd hdate (fun hd => hloop e he hd)
    · rcases List.mem_append.mp he with he' | he'
      · exact absurd hdate (fun hd => hloop e he' hd)
      · rw [List.mem_singleton.mp he']
        exact terminalHold_signal df.close sw lw c0

/-- Witness for C6: on closes `[10, 10, 12, 12, 8]` with windows `1`/`2`,
a SELL is emitted at bar `4`, where the short mean drops below the long
mean while the position is long. -/
theorem sell_iff_cross_witness :
    ((0 : ℕ) < 4) ∧
    (((∃ e ∈ (calculate_signals (mkDF [10, 10, 12, 12, 8]) 1 2 1000).history,
        e.date = 4 ∧ e.signal = SignalKind.SELL)
      ↔ maLT (rollingMean [10, 10, 12, 12, 8] 1 4)
            (rollingMean [10, 10, 12, 12, 8] 2 4) = true
        ∧ (loopState [10, 10, 12, 12, 8] 1 2 1000 4).current_position = 1)
    ∧ (rollingMean [10, 10, 12, 12, 8] 1 4 = rollingMean [10, 10, 12, 12, 8] 2 4 →
        ∀ e ∈ (calculate_signals (mkDF [10, 10, 12, 12, 8]) 1 2 1000).history,
          e.date = 4 → e.signal = SignalKind.HOLD)) :=
  ⟨by decide, sell_iff_cross (mkDF [10, 10, 12, 12, 8]) 1 2 1000 4 (by decide)⟩

lemma alternation_inv (closes : List ℚ) (sw lw : ℕ) (c0 : ℚ) (k : ℕ) :
    (∀ e ∈ (loopState closes sw lw c0 k).signals, e.signal ≠ SignalKind.HOLD)
    ∧ ((loopState closes sw lw c0 k).current_position = 1 ↔
        ((loopState closes sw lw c0 k).signals.map SignalEvent.signal).getLast?
          = some SignalKind.BUY)
    ∧ List.Chain' (fun a b => a ≠ b)
        ((loopState closes sw lw c0 k).signals.map SignalEvent.signal) := by
  induction k with
  | zero => simp [loopState, runLoop, initState]
  | succ k ih =>
    obtain ⟨ihh, ihp, ihc⟩ := ih
    rw [loopState_succ]
    unfold stepBar
    split_ifs with h0 h1 h2
    · exact ⟨ihh, ihp, ihc⟩
    · rw [Bool.and_eq_true, beq_iff_eq] at h1
      have hp0 : (loopState closes sw lw c0 k).current_position = 0 := h1.2
      have hlast : ((loopState closes sw lw c0 k).signals.map
          SignalEvent.signal).getLast? ≠ some SignalKind.BUY := by
        intro hc
        have := ihp.mpr hc
        omega
      refine ⟨?_, ?_, ?_⟩
      · intro e he
        simp only [List.mem_append, List.mem_singleton] at he
        rcases he with he | rfl
        · exact ihh e he
        · simp
      · simp [List.map_append]
      · simp only [List.map_append, List.map_cons, List.map_nil]
        refine List.chain'_append.mpr ⟨ihc, List.chain'_singleton _, ?_⟩
        intro x hx y hy
        simp only [List.head?_cons] at hy
        obtain rfl : SignalKind.BUY = y := Option.some.inj (Option.mem_def.mp hy)
        rintro rfl
        exact hlast (Option.mem_def.mp hx)
    · rw [Bool.and_eq_true, beq_iff_eq] at h2
      have hlastBuy := ihp.mp h2.2
      refine ⟨?_, ?_, ?_⟩
      · intro e he
        simp only [List.mem_append, List.mem_singleton] at he
        rcases he with he | rfl
        · exact ihh e he
        · simp
      · constructor
        · intro h
          exact absurd h (by decide)
        · intro h
          simp only [List.map_append, List.map_cons, List.map_nil,
            List.getLast?_concat] at h
          exact SignalKind.noConfusion (Option.some.inj h)
      · simp only [List.map_append, List.map_cons, List.map_nil]
        refine List.chain'_append.mpr ⟨ihc, List.chain'_singleton _, ?_⟩
        intro x hx y hy
        simp only [List.head?_cons] at hy
        obtain rfl : SignalKind.SELL = y := Option.some.inj (Option.mem_def.mp hy)
        have hx' := Option.mem_def.mp hx
        rw [hlastBuy] at hx'
        obtain rfl : SignalKind.BUY = x := Option.some.inj hx'
        decide
    · exact ⟨ihh, ihp, ihc⟩

/-- C5: for every input series and window configuration, the event
sequence never contains two BUY events without an intervening SELL and
never two SELL events without an intervening BUY: dropping the HOLD rows,
adjacent event kinds always differ (position alternation invariant). -/
theorem signal_alternation (df : DataFrame) (sw lw : ℕ) (c0 : ℚ) :
    List.Chain' (fun a b => a ≠ b)
      (((calculate_signals df sw lw c0).history.filter
        (fun e => e.signal ≠ SignalKind.HOLD)).map SignalEvent.signal) := by
  obtain ⟨ihh, _, ihc⟩ := alternation_inv df.close sw lw c0 df.close.length
  have hh : (calculate_signals df sw lw c0).history = historyOf df.close sw lw c0 := rfl
  have hself : List.filter (fun e => e.signal ≠ SignalKind.HOLD)
      (loopState df.close sw lw c0 df.close.length).signals =
      (loopState df.close sw lw c0 df.close.length).signals :=
    List.filter_eq_self.mpr (fun a ha => by simp [ihh a ha])
  rcases historyOf_cases df.close sw lw c0 with h | h <;> rw [hh, h]
  · rw [hself]
    exact ihc
  · rw [List.filter_append, hself]
    have hth : List.filter (fun e => e.signal ≠ SignalKind.HOLD)
        [terminalHold df.close sw lw c0] = [] := by
      simp [terminalHold_signal]
    rw [hth, List.append_nil]
    exact ihc

lemma slice_sum (l : List ℚ) (a b : ℕ) (hab : a ≤ b) (hb : b ≤ l.length) :
    ((l.take b).drop a).sum = ∑ j in Finset.Ico a b, l.getD j 0 := by
  suffices H : ∀ n a, a ≤ b → b - a = n →
      ((l.take b).drop a).sum = ∑ j in Finset.Ico a b, l.getD j 0 from
    H (b - a) a hab rfl
  intro n
  induction n with
  | zero =>
    intro a hab' hn
    obtain rfl : a = b := by omega
    rw [List.drop_eq_nil_of_le (by rw [List.length_take]; omega)]
    simp
  | succ n ih =>
    intro a hab' hn
    have hab2 : a < b := by omega
    have halen : a < (l.take b).length := by rw [List.length_take]; omega
    have hal : a < l.length := by omega
    rw [List.drop_eq_getElem_cons halen, List.sum_cons,
      Finset.sum_eq_sum_Ico_succ_bot hab2, List.getElem_take,
      ih (a + 1) (by omega) (by omega), List.getD_eq_getElem l 0 hal]

/-- C7: the trailing simple moving average at bar `i` is present exactly
when `i ≥ w - 1` (for an in-range index), equals the arithmetic mean of
the closes of bars `[i - w + 1, i]` when present, and is absent at every
index for a series shorter than the window. -/
theorem rollingMean_spec (closes : List ℚ) (w i : ℕ) (hw : 1 ≤ w) :
    (i < closes.length → ((rollingMean closes w i).isSome ↔ w - 1 ≤ i))
    ∧ (w - 1 ≤ i → i < closes.length →
        rollingMean closes w i =
          some ((∑ j in Finset.Icc (i + 1 - w) i, closes.getD j 0) / (w : ℚ)))
    ∧ (closes.length < w → rollingMean closes w i = none) := by
  refine ⟨?_, ?_, ?_⟩
  · intro hi
    unfold rollingMean
    split_ifs with h
    · simp only [Option.isSome_none, Bool.false_eq_true, false_iff]
      omega
    · simp only [Option.isSome_some, true_iff]
      omega
  · intro hwi hi
    unfold rollingMean
    rw [if_neg (by omega)]
    rw [slice_sum closes (i + 1 - w) (i + 1) (by omega) (by omega),
      Nat.Ico_succ_right]
  · intro hlen
    unfold rollingMean
    rw [if_pos]
    rcases le_or_lt closes.length i with h | h
    · exact Or.inr (Or.inr h)
    · exact Or.inr (Or.inl (by omega))

/-- Witness for C7: for closes `[4, 8, 6]` and window `2`, the mean at
bar `2` is present and equals `(8 + 6) / 2 = 7`, matching the `Icc` sum. -/
theorem rollingMean_spec_witness :
    ((1 : ℕ) ≤ 2) ∧
    (((2 : ℕ) < ([4, 8, 6] : List ℚ).length →
        ((rollingMean [4, 8, 6] 2 2).isSome ↔ (2 : ℕ) - 1 ≤ 2))
    ∧ ((2 : ℕ) - 1 ≤ 2 → (2 : ℕ) < ([4, 8, 6] : List ℚ).length →
        rollingMean [4, 8, 6] 2 2 =
          some ((∑ j in Finset.Icc (2 + 1 - 2) 2, ([4, 8, 6] : List ℚ).getD j 0)
            / ((2 : ℕ) : ℚ)))
    ∧ (([4, 8, 6] : List ℚ).length < 2 → rollingMean [4, 8, 6] 2 2 = none)) :=
  ⟨by decide, rollingMean_spec [4, 8, 6] 2 2 (by decide)⟩

/-! ### The portfolio accounting refines continuous mark-to-market -/

lemma mul_one_add_ret {v p e : ℚ} (he : e ≠ 0) :
    v * (1 + (p - e) / e) = v * p / e := by
  field_simp

lemma mtm_chain {v d c ep : ℚ} (hd : d ≠ 0) :
    v * d / ep * (1 + (c - d) / d) = v * c / ep := by
  rw [mul_one_add_ret hd, div_mul_eq_mul_div, div_div,
    mul_comm ep d, ← div_div, show v * d * c = v * c * d from by ring,
    mul_div_assoc, div_self hd, mul_one]

lemma getD_pos {closes : List ℚ} (hpos : ∀ c ∈ closes, 0 < c) {i : ℕ}
    (hi : i < closes.length) : 0 < closes.getD i 0 := by
  rw [List.getD_eq_getElem closes 0 hi]
  exact hpos _ (List.getElem_mem hi)

lemma stepBar_zero (closes : List ℚ) (sw lw : ℕ) (s : SimState) :
    stepBar closes sw lw s 0 = s := rfl

lemma mtmStep_zero (closes : List ℚ) (sw lw : ℕ) (st : ℚ × ℕ) :
    mtmStep closes sw lw st 0 = st := rfl

lemma mtmRun_succ (closes : List ℚ) (sw lw : ℕ) (st : ℚ × ℕ) (k : ℕ) :
    mtmRun closes sw lw st (k + 1) =
      mtmStep closes sw lw (mtmRun closes sw lw st k) k := rfl

lemma stepBar_buy_pos {closes : List ℚ} {sw lw : ℕ} {s : SimState} {i : ℕ}
    (h0 : i ≠ 0)
    (hg : (maGT (rollingMean closes sw i) (rollingMean closes lw i)
      && (s.current_position == 0)) = true) :
    (stepBar closes sw lw s i).current_position = 1 := by
  unfold stepBar
  rw [if_neg h0, if_pos hg]

lemma stepBar_buy_val {closes : List ℚ} {sw lw : ℕ} {s : SimState} {i : ℕ}
    (h0 : i ≠ 0)
    (hg : (maGT (rollingMean closes sw i) (rollingMean closes lw i)
      && (s.current_position == 0)) = true) :
    (stepBar closes sw lw s i).current_value = s.current_value := by
  unfold stepBar
  rw [if_neg h0, if_pos hg]

lemma stepBar_buy_entry {closes : List ℚ} {sw lw : ℕ} {s : SimState} {i : ℕ}
    (h0 : i ≠ 0)
    (hg : (maGT (rollingMean closes sw i) (rollingMean closes lw i)
      && (s.current_position == 0)) = true) :
    (stepBar closes sw lw s i).entry_price = some (closes.getD i 0) := by
  unfold stepBar
  rw [if_neg h0, if_pos hg]

lemma stepBar_sell_pos {closes : List ℚ} {sw lw : ℕ} {s : SimState} {i : ℕ}
    (h0 : i ≠ 0)
    (hg1 : ¬ (maGT (rollingMean closes sw i) (rollingMean closes lw i)
      && (s.current_position == 0)) = true)
    (hg2 : (maLT (rollingMean closes sw i) (rollingMean closes lw i)
      && (s.current_position == 1)) = true) :
    (stepBar closes sw lw s i).current_position = 0 := by
  unfold stepBar
  rw [if_neg h0, if_neg hg1, if_pos hg2]

lemma stepBar_sell_val {closes : List ℚ} {sw lw : ℕ} {s : SimState} {i : ℕ}
    (h0 : i ≠ 0)
    (hg1 : ¬ (maGT (rollingMean closes sw i) (rollingMean closes lw i)
      && (s.current_position == 0)) = true)
    (hg2 : (maLT (rollingMean closes sw i) (rollingMean closes lw i)
      && (s.current_position == 1)) = true) :
    (stepBar closes sw lw s i).current_value =
      sellValue s (closes.getD i 0) := by
  unfold stepBar
  rw [if_neg h0, if_neg hg1, if_pos hg2]

lemma stepBar_sell_entry {closes : List ℚ} {sw lw : ℕ} {s : SimState} {i : ℕ}
    (h0 : i ≠ 0)
    (hg1 : ¬ (maGT (rollingMean closes sw i) (rollingMean closes lw i)
      && (s.current_position == 0)) = true)
    (hg2 : (maLT (rollingMean closes sw i) (rollingMean closes lw i)
      && (s.current_position == 1)) = true) :
    (stepBar closes sw lw s i).entry_price = none := by
  unfold stepBar
  rw [if_neg h0, if_neg hg1, if_pos hg2]

lemma stepBar_of_none {closes : List ℚ} {sw lw : ℕ} {s : SimState} {i : ℕ}
    (h0 : i ≠ 0)
    (hg1 : ¬ (maGT (rollingMean closes sw i) (rollingMean closes lw i)
      && (s.current_position == 0)) = true)
    (hg2 : ¬ (maLT (rollingMean closes sw i) (rollingMean closes lw i)
      && (s.current_position == 1)) = true) :
    stepBar closes sw lw s i = s := by
  unfold stepBar
  rw [if_neg h0, if_neg hg1, if_neg hg2]

lemma mtmStep_buy {closes : List ℚ} {sw lw : ℕ} {st : ℚ × ℕ} {i : ℕ}
    (h0 : i ≠ 0)
    (hg : (maGT (rollingMean closes sw i) (rollingMean closes lw i)
      && (st.2 == 0)) = true) :
    mtmStep closes sw lw st i = (mtmValue closes st i, 1) := by
  unfold mtmStep
  rw [if_neg h0, if_pos hg]

lemma mtmStep_sell {closes : List ℚ} {sw lw : ℕ} {st : ℚ × ℕ} {i : ℕ}
    (h0 : i ≠ 0)
    (hg1 : ¬ (maGT (rollingMean closes sw i) (rollingMean closes lw i)
      && (st.2 == 0)) = true)
    (hg2 : (maLT (rollingMean closes sw i) (rollingMean closes lw i)
      && (st.2 == 1)) = true) :
    mtmStep closes sw lw st i = (mtmValue closes st i, 0) := by
  unfold mtmStep
  rw [if_neg h0, if_neg hg1, if_pos hg2]

lemma mtmStep_none {closes : List ℚ} {sw lw : ℕ} {st : ℚ × ℕ} {i : ℕ}
    (h0 : i ≠ 0)
    (hg1 : ¬ (maGT (rollingMean closes sw i) (rollingMean closes lw i)
      && (st.2 == 0)) = true)
    (hg2 : ¬ (maLT (rollingMean closes sw i) (rollingMean closes lw i)
      && (st.2 == 1)) = true) :
    mtmStep closes sw lw st i = (mtmValue closes st i, st.2) := by
  unfold mtmStep
  rw [if_neg h0, if_neg hg1, if_neg hg2]

lemma mtmValue_flat {closes : List ℚ} {st : ℚ × ℕ} {i : ℕ} (h : st.2 ≠ 1) :
    mtmValue closes st i = st.1 := by
  unfold mtmValue
  rw [if_neg h]

lemma mtmValue_long {closes : List ℚ} {st : ℚ × ℕ} {i : ℕ} (h : st.2 = 1) :
    mtmValue closes st i =
      st.1 * (1 + (closes.getD i 0 - closes.getD (i - 1) 0) /
        closes.getD (i - 1) 0) := by
  unfold mtmValue
  rw [if_pos h]

lemma mtm_inv (closes : List ℚ) (sw lw : ℕ) (c0 : ℚ)
    (hpos : ∀ c ∈ closes, 0 < c) (k : ℕ) (hk : k ≤ closes.length) :
    ((mtmRun closes sw lw (c0, 0) k).2 =
        (loopState closes sw lw c0 k).current_position)
    ∧ ((loopState closes sw lw c0 k).current_position = 0 →
        (loopState closes sw lw c0 k).entry_price = none ∧
        (mtmRun closes sw lw (c0, 0) k).1 =
          (loopState closes sw lw c0 k).current_value)
    ∧ ((loopState closes sw lw c0 k).current_position = 1 →
        ∃ ep, (loopState closes sw lw c0 k).entry_price = some ep ∧ 0 < ep ∧
          (mtmRun closes sw lw (c0, 0) k).1 =
            (loopState closes sw lw c0 k).current_value *
              closes.getD (k - 1) 0 / ep) := by
  induction k with
  | zero =>
    refine ⟨rfl, fun _ => ⟨rfl, rfl⟩, fun h => absurd h zero_ne_one⟩
  | succ k ih =>
    obtain ⟨ih1, ih2, ih3⟩ := ih (by omega)
    by_cases hk0 : k = 0
    · subst hk0
      rw [loopState_succ, mtmRun_succ, stepBar_zero, mtmStep_zero]
      exact ⟨ih1, ih2, ih3⟩
    · have hklen : k < closes.length := by omega
      have hcur : 0 < closes.getD k 0 := getD_pos hpos hklen
      have hprevlt : k - 1 < closes.length := by omega
      have hprev : 0 < closes.getD (k - 1) 0 := getD_pos hpos hprevlt
      rw [loopState_succ, mtmRun_succ]
      simp only [Nat.add_sub_cancel]
      rcases loopState_position closes sw lw c0 k with hp | hp
      · obtain ⟨hen, hveq⟩ := ih2 hp
        have hst2 : (mtmRun closes sw lw (c0, 0) k).2 = 0 := by rw [ih1, hp]
        have hstne1 : (mtmRun closes sw lw (c0, 0) k).2 ≠ 1 := by
          rw [hst2]; decide
        cases hmg : maGT (rollingMean closes sw k) (rollingMean closes lw k) with
        | true =>
          have hgS : (maGT (rollingMean closes sw k) (rollingMean closes lw k)
              && ((loopState closes sw lw c0 k).current_position == 0)) = true := by
            rw [hmg, hp]; rfl
          have hgM : (maGT (rollingMean closes sw k) (rollingMean closes lw k)
              && ((mtmRun closes sw lw (c0, 0) k).2 == 0)) = true := by
            rw [hmg, hst2]; rfl
          refine ⟨?_, ?_, ?_⟩
          · rw [mtmStep_buy hk0 hgM, stepBar_buy_pos hk0 hgS]
          · intro h
            rw [stepBar_buy_pos hk0 hgS] at h
            exact absurd h (by decide)
          · intro _
            refine ⟨closes.getD k 0, stepBar_buy_entry hk0 hgS, hcur, ?_⟩
            rw [mtmStep_buy hk0 hgM, stepBar_buy_val hk0 hgS]
            show mtmValue closes (mtmRun closes sw lw (c0, 0) k) k = _
            rw [mtmValue_flat hstne1, hveq, mul_div_assoc,
              div_self (ne_of_gt hcur), mul_one]
        | false =>
          have hgS1 : ¬ (maGT (rollingMean closes sw k) (rollingMean closes lw k)
              && ((loopState closes sw lw c0 k).current_position == 0)) = true := by
            rw [hmg]; simp
          have hgS2 : ¬ (maLT (rollingMean closes sw k) (rollingMean closes lw k)
              && ((loopState closes sw lw c0 k).current_position == 1)) = true := by
            rw [hp]; simp
          have hgM1 : ¬ (maGT (rollingMean closes sw k) (rollingMean closes lw k)
              && ((mtmRun closes sw lw (c0, 0) k).2 == 0)) = true := by
            rw [hmg]; simp
          have hgM2 : ¬ (maLT (rollingMean closes sw k) (rollingMean closes lw k)
              && ((mtmRun closes sw lw (c0, 0) k).2 == 1)) = true := by
            rw [hst2]; simp
          rw [stepBar_of_none hk0 hgS1 hgS2, mtmStep_none hk0 hgM1 hgM2]
          refine ⟨ih1, ?_, ?_⟩
          · intro h
            refine ⟨hen, ?_⟩
            show mtmValue closes (mtmRun closes sw lw (c0, 0) k) k = _
            rw [mtmValue_flat hstne1]
            exact hveq
          · intro h
            rw [hp] at h
            exact absurd h (by decide)
      · obtain ⟨ep, hen, hep, hveq⟩ := ih3 hp
        have hst2 : (mtmRun closes sw lw (c0, 0) k).2 = 1 := by rw [ih1, hp]
        have hmv : mtmValue closes (mtmRun closes sw lw (c0, 0) k) k =
            (loopState closes sw lw c0 k).current_value *
              closes.getD k 0 / ep := by
          rw [mtmValue_long hst2, hveq]
          exact mtm_chain (ne_of_gt hprev)
        have hgS1 : ¬ (maGT (rollingMean closes sw k) (rollingMean closes lw k)
            && ((loopState closes sw lw c0 k).current_position == 0)) = true := by
          rw [hp]; simp
        have hgM1 : ¬ (maGT (rollingMean closes sw k) (rollingMean closes lw k)
            && ((mtmRun closes sw lw (c0, 0) k).2 == 0)) = true := by
          rw [hst2]; simp
        cases hml : maLT (rollingMean closes sw k) (rollingMean closes lw k) with
        | true =>
          have hgS2 : (maLT (rollingMean closes sw k) (rollingMean closes lw k)
              && ((loopState closes sw lw c0 k).current_position == 1)) = true := by
            rw [hml, hp]; rfl
          have hgM2 : (maLT (rollingMean closes sw k) (rollingMean closes lw k)
              && ((mtmRun closes sw lw (c0, 0) k).2 == 1)) = true := by
            rw [hml, hst2]; rfl
          have hsv : sellValue (loopState closes sw lw c0 k) (closes.getD k 0) =
              (loopState closes sw lw c0 k).current_value *
                closes.getD k 0 / ep := by
            simp only [sellValue, hen]
            exact mul_one_add_ret (ne_of_gt hep)
          rw [mtmStep_sell hk0 hgM1 hgM2]
          refine ⟨?_, ?_, ?_⟩
          · rw [stepBar_sell_pos hk0 hgS1 hgS2]
          · intro _
            refine ⟨stepBar_sell_entry hk0 hgS1 hgS2, ?_⟩
            rw [stepBar_sell_val hk0 hgS1 hgS2, hsv]
            exact hmv
          · intro h
            rw [stepBar_sell_pos hk0 hgS1 hgS2] at h
            exact absurd h (by decide)
        | false =>
          have hgS2 : ¬ (maLT (rollingMean closes sw k) (rollingMean closes lw k)
              && ((loopState closes sw lw c0 k).current_position == 1)) = true := by
            rw [hml]; simp
          have hgM2 : ¬ (maLT (rollingMean closes sw k) (rollingMean closes lw k)
              && ((mtmRun closes sw lw (c0, 0) k).2 == 1)) = true := by
            rw [hml]; simp
          rw [stepBar_of_none hk0 hgS1 hgS2, mtmStep_none hk0 hgM1 hgM2]
          refine ⟨ih1, ?_, ?_⟩
          · intro h
            rw [hp] at h
            exact absurd h (by decide)
          · intro _
            exact ⟨ep, hen, hep, hmv⟩

/-- C3: with positive closing prices, the simulator's accounting — value
realised at SELL from the recorded entry price, plus the terminal
mark-to-market adjustment for a position still open at the final bar —
produces exactly the final value of the continuous mark-to-market policy
(capital static while FLAT, equity compounded by each bar's return while
LONG). -/
theorem final_value_eq_mtm (df : DataFrame) (sw lw : ℕ) (c0 : ℚ)
    (hpos : ∀ c ∈ df.close, 0 < c) :
    (calculate_signals df sw lw c0).final_value = mtmFinal df.close sw lw c0 := by
  have hfv : (calculate_signals df sw lw c0).final_value =
      finalValue df.close sw lw c0 := rfl
  rw [hfv]
  obtain ⟨ih1, ih2, ih3⟩ := mtm_inv df.close sw lw c0 hpos df.close.length le_rfl
  unfold finalValue mtmFinal
  rcases loopState_position df.close sw lw c0 df.close.length with hp | hp
  · obtain ⟨hen, hveq⟩ := ih2 hp
    rw [hp, hen]
    exact hveq.symm
  · obtain ⟨ep, hen, hep, hveq⟩ := ih3 hp
    rw [hp, hen]
    have hgoal : (loopState df.close sw lw c0 df.close.length).current_value *
        (1 + (finalPrice df.close - ep) / ep) =
        (mtmRun df.close sw lw (c0, 0) df.close.length).1 := by
      rw [mul_one_add_ret (ne_of_gt hep), hveq]
      rfl
    exact hgoal

/-- Witness for C3: on closes `[10, 10, 12, 12, 8]` with windows `1`/`2`
and capital `1000`, both accountings give `2000/3`. -/
theorem final_value_eq_mtm_witness :
    (∀ c ∈ ([10, 10, 12, 12, 8] : List ℚ), 0 < c) ∧
    (calculate_signals (mkDF [10, 10, 12, 12, 8]) 1 2 1000).final_value =
      mtmFinal [10, 10, 12, 12, 8] 1 2 1000 :=
  ⟨by decide, final_value_eq_mtm (mkDF [10, 10, 12, 12, 8]) 1 2 1000 (by decide)⟩

/-! ### The terminal HOLD row, the first bar, and the result envelope -/

lemma historyOf_append_of_none (closes : List ℚ) (sw lw : ℕ) (c0 : ℚ)
    (hlast : (loopState closes sw lw c0 closes.length).signals.getLast? = none) :
    historyOf closes sw lw c0 =
      (loopState closes sw lw c0 closes.length).signals ++
        [terminalHold closes sw lw c0] := by
  unfold historyOf
  simp only [hlast]

lemma historyOf_eq_of_last (closes : List ℚ) (sw lw : ℕ) (c0 : ℚ)
    {e : SignalEvent}
    (hlast : (loopState closes sw lw c0 closes.length).signals.getLast? = some e)
    (hd : e.date = closes.length - 1) :
    historyOf closes sw lw c0 = (loopState closes sw lw c0 closes.length).signals := by
  unfold historyOf
  simp only [hlast]
  rw [if_pos hd]

lemma historyOf_append_of_last (closes : List ℚ) (sw lw : ℕ) (c0 : ℚ)
    {e : SignalEvent}
    (hlast : (loopState closes sw lw c0 closes.length).signals.getLast? = some e)
    (hd : ¬ e.date = closes.length - 1) :
    historyOf closes sw lw c0 =
      (loopState closes sw lw c0 closes.length).signals ++
        [terminalHold closes sw lw c0] := by
  unfold historyOf
  simp only [hlast]
  rw [if_neg hd]

set_option maxRecDepth 100000 in
/-- C2 (counterexample): on the two-bar series `[10, 10]` with windows
`1`/`2` no transition ever fires and the position ends FLAT, yet the
terminal HOLD row is still synthesized — refuting the claim that it is
synthesized only when the position is LONG at the end. -/
theorem hold_synthesis_counterexample :
    (calculate_signals (mkDF [10, 10]) 1 2 1000).history =
      [{ date := 1
         signal := SignalKind.HOLD
         price := 10
         position := 0
         portfolio_value := 1000
         short_ma := some 10
         long_ma := some 10 }]
    ∧ (loopState [10, 10] 1 2 1000 2).current_position = 0 := by
  with_unfolding_all decide

/-- C2 (amended): the terminal HOLD row is synthesized at the final bar
if and only if no loop event is dated at the final bar (in particular
always when the history is empty), regardless of the final position; the
history is the loop events with at most that one appended row; and the
row carries the (rounded) final portfolio value, which includes the
mark-to-market revaluation when the position is still LONG. -/
theorem hold_synthesis_amended (df : DataFrame) (sw lw : ℕ) (c0 : ℚ)
    (hne : df.close ≠ []) :
    ((calculate_signals df sw lw c0).history =
        (loopState df.close sw lw c0 df.close.length).signals ++
          [terminalHold df.close sw lw c0]
      ↔ ∀ e ∈ (loopState df.close sw lw c0 df.close.length).signals,
          e.date ≠ df.close.length - 1)
    ∧ (terminalHold df.close sw lw c0).portfolio_value =
        round2 (calculate_signals df sw lw c0).final_value
    ∧ ((calculate_signals df sw lw c0).history =
          (loopState df.close sw lw c0 df.close.length).signals
        ∨ (calculate_signals df sw lw c0).history =
            (loopState df.close sw lw c0 df.close.length).signals ++
              [terminalHold df.close sw lw c0]) := by
  have hh : (calculate_signals df sw lw c0).history = historyOf df.close sw lw c0 := rfl
  refine ⟨?_, rfl, hh ▸ historyOf_cases df.close sw lw c0⟩
  rw [hh]
  cases hlast : (loopState df.close sw lw c0 df.close.length).signals.getLast? with
  | none =>
    have hnil : (loopState df.close sw lw c0 df.close.length).signals = [] :=
      List.getLast?_eq_none_iff.mp hlast
    rw [historyOf_append_of_none df.close sw lw c0 hlast, hnil]
    simp
  | some e =>
    by_cases hd : e.date = df.close.length - 1
    · rw [historyOf_eq_of_last df.close sw lw c0 hlast hd]
      refine iff_of_false ?_ ?_
      · intro hcontra
        have := congrArg List.length hcontra
        simp at this
      · intro hall
        exact hall e (List.mem_of_mem_getLast? hlast) hd
    · rw [historyOf_append_of_last df.close sw lw c0 hlast hd]
      refine iff_of_true rfl ?_
      intro e' he' hd'
      obtain ⟨hbounds, hlastmax⟩ := loopState_dates df.close sw lw c0 df.close.length
      have hle : e'.date ≤ e.date := hlastmax e hlast e' he'
      have hel : e.date < df.close.length :=
        (hbounds e (List.mem_of_mem_getLast? hlast)).2
      omega

/-- Witness for C2 (amended): on `[10, 10, 12, 12, 8]` with windows
`1`/`2` the loop's last event (the SELL) falls on the final bar, so no
HOLD row is appended. -/
theorem hold_synthesis_amended_witness :
    (mkDF [10, 10, 12, 12, 8]).close ≠ [] ∧
    (((calculate_signals (mkDF [10, 10, 12, 12, 8]) 1 2 1000).history =
        (loopState [10, 10, 12, 12, 8] 1 2 1000 5).signals ++
          [terminalHold [10, 10, 12, 12, 8] 1 2 1000]
      ↔ ∀ e ∈ (loopState [10, 10, 12, 12, 8] 1 2 1000 5).signals, e.date ≠ 4)
    ∧ (terminalHold [10, 10, 12, 12, 8] 1 2 1000).portfolio_value =
        round2 (calculate_signals (mkDF [10, 10, 12, 12, 8]) 1 2 1000).final_value
    ∧ ((calculate_signals (mkDF [10, 10, 12, 12, 8]) 1 2 1000).history =
          (loopState [10, 10, 12, 12, 8] 1 2 1000 5).signals
        ∨ (calculate_signals (mkDF [10, 10, 12, 12, 8]) 1 2 1000).history =
            (loopState [10, 10, 12, 12, 8] 1 2 1000 5).signals ++
              [terminalHold [10, 10, 12, 12, 8] 1 2 1000])) :=
  ⟨by decide, hold_synthesis_amended (mkDF [10, 10, 12, 12, 8]) 1 2 1000 (by decide)⟩

set_option maxRecDepth 100000 in
/-- C9 (counterexample): a one-bar series puts the synthetic terminal
HOLD row on bar index `0`, so the first bar does produce an event. -/
theorem first_bar_event_counterexample :
    (calculate_signals (mkDF [10]) 1 1 1000).history =
      [{ date := 0
         signal := SignalKind.HOLD
         price := 10
         position := 0
         portfolio_value := 1000
         short_ma := some 10
         long_ma := some 10 }] := by
  with_unfolding_all decide

/-- C9 (amended): for every series of at least two bars, no event of any
kind is dated at the first bar (index `0`): loop events start at index
`1` and the terminal HOLD row sits at the final bar. -/
theorem first_bar_no_event_amended (df : DataFrame) (sw lw : ℕ) (c0 : ℚ)
    (h2 : 2 ≤ df.close.length) :
    ∀ e ∈ (calculate_signals df sw lw c0).history, e.date ≠ 0 := by
  intro e he
  have hh : (calculate_signals df sw lw c0).history = historyOf df.close sw lw c0 := rfl
  rcases historyOf_cases df.close sw lw c0 with h | h <;> rw [hh, h] at he
  · have := ((loopState_dates df.close sw lw c0 df.close.length).1 e he).1
    omega
  · rcases List.mem_append.mp he with he' | he'
    · have := ((loopState_dates df.close sw lw c0 df.close.length).1 e he').1
      omega
    · rw [List.mem_singleton.mp he']
      show df.close.length - 1 ≠ 0
      omega

/-- Witness for C9 (amended): on the two-bar series `[10, 10]` every
event is dated after bar `0`. -/
theorem first_bar_no_event_amended_witness :
    2 ≤ (mkDF [10, 10]).close.length ∧
    ∀ e ∈ (calculate_signals (mkDF [10, 10]) 1 2 1000).history, e.date ≠ 0 :=
  ⟨by decide, first_bar_no_event_amended (mkDF [10, 10]) 1 2 1000 (by decide)⟩

/-- C10: for every non-empty series the returned history is non-empty,
its last event is dated at the final bar, and the result's top-level
signal label is that last event's kind. -/
theorem result_last_event (df : DataFrame) (sw lw : ℕ) (c0 : ℚ)
    (h : df.close ≠ []) :
    (calculate_signals df sw lw c0).history ≠ []
    ∧ ∃ e, (calculate_signals df sw lw c0).history.getLast? = some e
        ∧ e.date = df.close.length - 1
        ∧ (calculate_signals df sw lw c0).signal = e.signal := by
  have hh : (calculate_signals df sw lw c0).history = historyOf df.close sw lw c0 := rfl
  have hsig : (calculate_signals df sw lw c0).signal =
      ((historyOf df.close sw lw c0).getLast?.map SignalEvent.signal).getD
        SignalKind.HOLD := rfl
  cases hlast : (loopState df.close sw lw c0 df.close.length).signals.getLast? with
  | none =>
    have hhist := historyOf_append_of_none df.close sw lw c0 hlast
    refine ⟨by rw [hh, hhist]; simp, terminalHold df.close sw lw c0, ?_, rfl, ?_⟩
    · rw [hh, hhist, List.getLast?_concat]
    · rw [hsig, hhist, List.getLast?_concat]
      rfl
  | some e =>
    by_cases hd : e.date = df.close.length - 1
    · have hhist := historyOf_eq_of_last df.close sw lw c0 hlast hd
      have hne : (loopState df.close sw lw c0 df.close.length).signals ≠ [] := by
        intro hnil
        rw [hnil] at hlast
        exact Option.noConfusion hlast
      refine ⟨by rw [hh, hhist]; exact hne, e, ?_, hd, ?_⟩
      · rw [hh, hhist]
        exact hlast
      · rw [hsig, hhist, hlast]
        rfl
    · have hhist := historyOf_append_of_last df.close sw lw c0 hlast hd
      refine ⟨by rw [hh, hhist]; simp, terminalHold df.close sw lw c0, ?_, rfl, ?_⟩
      · rw [hh, hhist, List.getLast?_concat]
      · rw [hsig, hhist, List.getLast?_concat]
        rfl

/-- Witness for C10: on `[10, 10]` the history is the single HOLD row at
the final bar and the result's label is HOLD. -/
theorem result_last_event_witness :
    (mkDF [10, 10]).close ≠ [] ∧
    ((calculate_signals (mkDF [10, 10]) 1 2 1000).history ≠ []
    ∧ ∃ e, (calculate_signals (mkDF [10, 10]) 1 2 1000).history.getLast? = some e
        ∧ e.date = 1
        ∧ (calculate_signals (mkDF [10, 10]) 1 2 1000).signal = e.signal) :=
  ⟨by decide, result_last_event (mkDF [10, 10]) 1 2 1000 (by decide)⟩

/-! ### Frame mutation and the reporter -/

set_option maxRecDepth 100000 in
/-- C8 (counterexample): computing signals on a freshly fetched frame
returns a frame different from the input — the source writes the
`short_ma` / `long_ma` columns into the frame it was given (lines 26-27),
so the Signal Engine does mutate its predecessor's output. -/
theorem frame_mutation_counterexample :
    (calculate_signals (mkDF [10, 10]) 1 2 1000).data ≠ mkDF [10, 10] := by
  with_unfolding_all decide

/-- C8 (amended): the only change `calculate_signals` makes to the frame
is writing the two moving-average columns — the close prices are passed
through unchanged — and the Signal History Reporter is a pure projection
of the event list into fresh display rows (one row per event, in order,
reading each event unchanged). -/
theorem frame_close_preserved (df : DataFrame) (sw lw : ℕ) (c0 : ℚ) :
    (calculate_signals df sw lw c0).data.close = df.close
    ∧ (calculate_signals df sw lw c0).data.short_ma = some (maCol df.close sw)
    ∧ (calculate_signals df sw lw c0).data.long_ma = some (maCol df.close lw)
    ∧ (renderHistory (calculate_signals df sw lw c0).history).length =
        (calculate_signals df sw lw c0).history.length
    ∧ (renderHistory (calculate_signals df sw lw c0).history).map DisplayRow.date =
        (calculate_signals df sw lw c0).history.map SignalEvent.date := by
  refine ⟨rfl, rfl, rfl, List.length_map _ _, ?_⟩
  unfold renderHistory
  rw [List.map_map]
  rfl

/-! ### One failing ticker aborts the whole batch -/

/-- C4: in a three-ticker batch whose second fetch returns an empty
frame, `calculate_signals` raises `IndexError` at `iloc[-1]`; the error
escapes to `main`'s single outer `try/except`, so the whole batch is
aborted (no per-ticker results at all) instead of two successes plus one
unavailability notice. -/
theorem batch_empty_ticker_aborts :
    processBatch [some (mkDF [10, 11]), some (mkDF []), some (mkDF [10, 11])]
        1 2 1000 = Except.error PyErr.indexError := by
  rfl

end MovingAverage
